import Mathlib

/-!
Shallow embedding of `src/fight_db.py` (class `FightDB`) from the
cosmoteer-com repository.

The two sqlite tables become Lean lists kept in insertion (rowid) order:
`Archetypes(id, shipname, parentid, description)` and
`Fights(id, shipname1, shipname2, author, author_name, result)`.
`INTEGER PRIMARY KEY` auto-assignment is modelled by the `nextAid` /
`nextFid` counters.  Every statement executed by the Python code before an
exception is raised is reflected in the returned state (sqlite would keep
those statements in the open transaction, and the next `commit` issued on
the shared connection persists them), so each operation returns
`Except Err _ × DB` where the second component is the post-execution state
even on the error path.

Python's `ValueError` sites are distinguished by the message they carry,
following the taxonomy notFound / conflict / invalidHierarchy; the
`TypeError` that `get_ship_id` raises when `fetchone()` returns `None`
(subscripting `None`) is `typeError`.  The unbounded recursion of
`insert_fight` is modelled with explicit fuel (`fuelOut`), processed as a
depth-first worklist which performs exactly the same checks, expansions and
writes in the same order as the Python self-calls.
-/

namespace FightDb

/-- Error taxonomy for the raise sites of `fight_db.py`. -/
inductive Err where
  | notFound
  | conflict
  | invalidHierarchy
  | typeError
  | fuelOut
  deriving DecidableEq

/-- Python class `FIGHT_RESULT`: `DRAW = 0`. -/
def FIGHT_RESULT.DRAW : Int := 0

/-- Python class `FIGHT_RESULT`: `WIN = 1`. -/
def FIGHT_RESULT.WIN : Int := 1

/-- Python class `FIGHT_RESULT`: `LOSE = -1` (never stored). -/
def FIGHT_RESULT.LOSE : Int := -1

/-- One row of the `Archetypes` table. -/
structure Archetype where
  id : Nat
  shipname : String
  parentid : Option Nat
  description : Option String
  deriving DecidableEq

/-- One row of the `Fights` table. -/
structure Fight where
  id : Nat
  shipname1 : String
  shipname2 : String
  author : String
  author_name : String
  result : Int
  deriving DecidableEq

/-- The database state: both tables in rowid order plus the next free ids. -/
structure DB where
  archetypes : List Archetype
  fights : List Fight
  nextAid : Nat
  nextFid : Nat
  deriving DecidableEq

/-- The freshly created database (both tables empty, sqlite rowids start at 1). -/
def DB.init : DB := ⟨[], [], 1, 1⟩

/-- `FightDB.archetype_exists`: `SELECT 1 FROM Archetypes WHERE shipname = ?`. -/
def archetype_exists (db : DB) (shipname : String) : Bool :=
  db.archetypes.any (fun a => a.shipname == shipname)

/-- `FightDB.get_ship_id`: returns `None` for a `None` argument, otherwise
`SELECT id FROM Archetypes WHERE shipname=?` followed by `fetchone()[0]`,
which raises `TypeError` when no row matches. -/
def get_ship_id (db : DB) : Option String → Except Err (Option Nat)
  | none => .ok none
  | some s =>
    match db.archetypes.find? (fun a => a.shipname == s) with
    | some a => .ok (some a.id)
    | none => .error .typeError

/-- `FightDB.ship_is_leaf`: `SELECT 1 FROM Archetypes WHERE parentid = ?`
with the ship's id, negated.  A SQL `parentid = NULL` comparison matches no
row, hence the `none` branch yields `true`. -/
def ship_is_leaf (db : DB) (shipname : String) : Except Err Bool :=
  match get_ship_id db (some shipname) with
  | .error e => .error e
  | .ok none => .ok true
  | .ok (some i) => .ok (!(db.archetypes.any (fun a => a.parentid == some i)))

/-- `FightDB.archetypes_children`: shipnames of all rows whose `parentid`
equals the ship's id, in table order. -/
def archetypes_children (db : DB) (shipname : String) : Except Err (List String) :=
  match get_ship_id db (some shipname) with
  | .error e => .error e
  | .ok none => .ok []
  | .ok (some i) =>
    .ok ((db.archetypes.filter (fun a => a.parentid == some i)).map (fun a => a.shipname))

/-- The `WHERE` clause shared by the dedup search of `insert_fight` and by
`remove_fight`: same unordered pair of shipnames and the same author,
regardless of stored order. -/
def fightMatches (shipname1 shipname2 author : String) (f : Fight) : Bool :=
  (f.shipname1 == shipname1 && f.shipname2 == shipname2 && f.author == author) ||
  (f.shipname1 == shipname2 && f.shipname2 == shipname1 && f.author == author)

/-- The leaf-vs-leaf body of `FightDB.insert_fight` (lines 66-82): fetch the
first existing row for the same unordered pair and author, delete it by id
if present, then insert the new row. -/
def dedupe_insert (db : DB) (shipname1 shipname2 author author_name : String)
    (result : Int) : DB :=
  match db.fights.find? (fightMatches shipname1 shipname2 author) with
  | some existing =>
    { db with
      fights := (db.fights.filter (fun g => !(g.id == existing.id))) ++
        [⟨db.nextFid, shipname1, shipname2, author, author_name, result⟩],
      nextFid := db.nextFid + 1 }
  | none =>
    { db with
      fights := db.fights ++
        [⟨db.nextFid, shipname1, shipname2, author, author_name, result⟩],
      nextFid := db.nextFid + 1 }

/-- Depth-first worklist form of the recursion of `FightDB.insert_fight`.
Each pending `(shipname1, shipname2)` pair goes through exactly the checks
of one Python call: existence of both names, leaf classification of
`shipname1` then `shipname2`, recursion over the children of the internal
side (prepended, preserving the Python call order), and the leaf-vs-leaf
dedupe-and-insert.  An exception aborts the remaining work, keeping the
state written so far, just as the per-leaf commits of the source do. -/
def insertLoop : Nat → DB → List (String × String) → String → String → Int →
    Except Err Unit × DB
  | _, db, [], _, _, _ => (.ok (), db)
  | 0, db, _ :: _, _, _, _ => (.error .fuelOut, db)
  | fuel+1, db, (s1, s2) :: rest, author, author_name, result =>
    if archetype_exists db s1 then
      if archetype_exists db s2 then
        match ship_is_leaf db s1 with
        | .error e => (.error e, db)
        | .ok true =>
          match ship_is_leaf db s2 with
          | .error e => (.error e, db)
          | .ok true =>
            insertLoop fuel (dedupe_insert db s1 s2 author author_name result)
              rest author author_name result
          | .ok false =>
            match archetypes_children db s2 with
            | .error e => (.error e, db)
            | .ok cs =>
              insertLoop fuel db ((cs.map (fun c => (s1, c))) ++ rest)
                author author_name result
        | .ok false =>
          match archetypes_children db s1 with
          | .error e => (.error e, db)
          | .ok cs =>
            insertLoop fuel db ((cs.map (fun c => (c, s2))) ++ rest)
              author author_name result
      else (.error .notFound, db)
    else (.error .notFound, db)

/-- `FightDB.insert_fight`: one reported fight, recursively fanned out. -/
def insert_fight (fuel : Nat) (db : DB) (shipname1 shipname2 author author_name : String)
    (result : Int) : Except Err Unit × DB :=
  insertLoop fuel db [(shipname1, shipname2)] author author_name result

/-- `FightDB.remove_fight`: `DELETE` every row for the unordered pair and
author. -/
def remove_fight (db : DB) (shipname1 shipname2 author : String) : DB :=
  { db with fights := db.fights.filter (fun f => !(fightMatches shipname1 shipname2 author f)) }

/-- `FightDB.add_ship`: idempotent insert into `Archetypes`; looking up a
missing parent name raises (`get_ship_id` subscripts `None`). -/
def add_ship (db : DB) (shipname : String) (parent_name : Option String)
    (description : Option String) : Except Err Unit × DB :=
  if archetype_exists db shipname then (.ok (), db)
  else
    match get_ship_id db parent_name with
    | .error e => (.error e, db)
    | .ok pid =>
      (.ok (), { db with
        archetypes := db.archetypes ++ [⟨db.nextAid, shipname, pid, description⟩],
        nextAid := db.nextAid + 1 })

/-- The two sequential `UPDATE Fights SET shipname1/shipname2` statements of
`FightDB.rename_ship`. -/
def renameFights (fights : List Fight) (old_name new_name : String) : List Fight :=
  (fights.map (fun f =>
      if f.shipname1 == old_name then { f with shipname1 := new_name } else f)).map
    (fun f => if f.shipname2 == old_name then { f with shipname2 := new_name } else f)

/-- The `UPDATE Archetypes SET shipname` statement of `FightDB.rename_ship`. -/
def renameArchetypes (archeRows : List Archetype) (old_name new_name : String) :
    List Archetype :=
  archeRows.map (fun a =>
    if a.shipname == old_name then { a with shipname := new_name } else a)

/-- `FightDB.rename_ship`: optional rename, optional re-parenting with the
shallow hierarchy checks, optional description update (which filters by the
ORIGINAL name).  Statements executed before a raise stay in the returned
state. -/
def rename_ship (db : DB) (old_name : String)
    (new_name new_parent_name new_description : Option String) :
    Except Err Unit × DB :=
  if archetype_exists db old_name then
    match ((match new_name with
      | some nn =>
        if archetype_exists db nn then .error Err.conflict
        else .ok ({ db with
            fights := renameFights db.fights old_name nn,
            archetypes := renameArchetypes db.archetypes old_name nn }, nn)
      | none => .ok (db, old_name)) : Except Err (DB × String)) with
    | .error e => (.error e, db)
    | .ok (db1, current_name) =>
      match ((match new_parent_name with
        | some np =>
          if archetype_exists db1 np then
            if np == current_name then .error Err.invalidHierarchy
            else
              match archetypes_children db1 current_name with
              | .error e => .error e
              | .ok children =>
                if children.contains np then .error Err.invalidHierarchy
                else
                  match get_ship_id db1 (some np) with
                  | .error e => .error e
                  | .ok pid =>
                    .ok { db1 with archetypes := db1.archetypes.map (fun a =>
                      if a.shipname == current_name then { a with parentid := pid } else a) }
          else .error Err.notFound
        | none => .ok db1) : Except Err DB) with
      | .error e => (.error e, db1)
      | .ok db2 =>
        match new_description with
        | some nd =>
          (.ok (), { db2 with archetypes := db2.archetypes.map (fun a =>
            if a.shipname == old_name then { a with description := some nd } else a) })
        | none => (.ok (), db2)
  else (.error .notFound, db)

/-- Count of rows `(ship1, ship2, result=1)` — `num_wins` in
`FightDB.get_average_match`. -/
def winCount (db : DB) (ship1 ship2 : String) : Nat :=
  (db.fights.filter (fun f =>
    f.shipname1 == ship1 && f.shipname2 == ship2 && f.result == (1 : Int))).length

/-- Count of draw rows between the two ships in either order — `num_draw`
in `FightDB.get_average_match`. -/
def drawCount (db : DB) (ship1 ship2 : String) : Nat :=
  (db.fights.filter (fun f =>
    f.shipname1 == ship1 && f.shipname2 == ship2 && f.result == (0 : Int))).length
  + (db.fights.filter (fun f =>
    f.shipname1 == ship2 && f.shipname2 == ship1 && f.result == (0 : Int))).length

/-- `FightDB.get_average_match`: majority vote between win, loss and draw
counts; ties fall through to `0` (draw). -/
def get_average_match (db : DB) (ship1 ship2 : String) : Int :=
  let num_wins := winCount db ship1 ship2
  let num_loss := winCount db ship2 ship1
  let num_draw := drawCount db ship1 ship2
  if num_loss < num_wins ∧ num_draw < num_wins then 1
  else if num_wins < num_loss ∧ num_draw < num_loss then -1
  else 0

/-- The write operations of the store, for reachability statements. -/
inductive Op where
  | add (shipname : String) (parent_name : Option String) (description : Option String)
  | report (fuel : Nat) (shipname1 shipname2 author author_name : String) (result : Int)
  | removeF (shipname1 shipname2 author : String)
  | rename (old_name : String) (new_name new_parent_name new_description : Option String)

/-- Executing one operation; the state reflects everything the operation
wrote, whether or not it raised. -/
def applyOp (db : DB) : Op → DB
  | .add s p d => (add_ship db s p d).2
  | .report fuel s1 s2 au an r => (insert_fight fuel db s1 s2 au an r).2
  | .removeF s1 s2 au => remove_fight db s1 s2 au
  | .rename o nn np nd => (rename_ship db o nn np nd).2

/-- Executing a sequence of operations from a starting state. -/
def runOps (db : DB) (ops : List Op) : DB :=
  ops.foldl applyOp db

/-- Recognizer for `Op.add`, to describe add-only histories. -/
def Op.isAdd : Op → Bool
  | .add _ _ _ => true
  | _ => false

/-- Histories built from `add` operations only. -/
def AddOnly (ops : List Op) : Prop :=
  ∀ op ∈ ops, op.isAdd = true

/-- Parent id of the archetype row with a given id (lookup by id). -/
def parentIdOf (db : DB) (i : Nat) : Option Nat :=
  match db.archetypes.find? (fun a => a.id == i) with
  | some a => a.parentid
  | none => none

/-- Iterating the parent relation `k` steps up from id `i`. -/
def ancestorIter (db : DB) : Nat → Nat → Option Nat
  | 0, i => some i
  | k+1, i =>
    match parentIdOf db i with
    | some p => ancestorIter db k p
    | none => none

/-- At most one Fight row per unordered pair of names per author. -/
def PairAuthorUnique (fights : List Fight) : Prop :=
  ∀ s1 s2 author, fights.countP (fightMatches s1 s2 author) ≤ 1

/-- Every name stored on either side of a Fight row names an existing
archetype. -/
def FightNamesExist (db : DB) : Prop :=
  ∀ f ∈ db.fights,
    archetype_exists db f.shipname1 = true ∧ archetype_exists db f.shipname2 = true

/-- The combined reachable-state invariant of the fight table. -/
def InvDB (db : DB) : Prop :=
  PairAuthorUnique db.fights ∧ FightNamesExist db

/-- Pointwise effect on one Fight row of the two sequential rename updates. -/
def rnF (old_name new_name : String) (f : Fight) : Fight :=
  { f with
    shipname1 := if f.shipname1 == old_name then new_name else f.shipname1,
    shipname2 := if f.shipname2 == old_name then new_name else f.shipname2 }

/-- Strict id ordering invariant of add-only histories: every stored parent
id is smaller than the row's own id, and all ids are below the id counter. -/
def ParentIdLt (db : DB) : Prop :=
  (∀ a ∈ db.archetypes, ∀ p, a.parentid = some p → p < a.id) ∧
  ∀ a ∈ db.archetypes, a.id < db.nextAid

/-- Concrete store holding the single archetype `a`. -/
def db_a : DB := ⟨[⟨1, "a", none, none⟩], [], 2, 1⟩

/-- Concrete store holding the two leaf archetypes `a` and `b`. -/
def db_two : DB := ⟨[⟨1, "a", none, none⟩, ⟨2, "b", none, none⟩], [], 3, 1⟩

/-- Concrete store: parent `p` with leaf children `c1`, `c2`, and leaf `b`. -/
def db_fan : DB :=
  ⟨[⟨1, "p", none, none⟩, ⟨2, "c1", some 1, none⟩, ⟨3, "c2", some 1, none⟩,
    ⟨4, "b", none, none⟩], [], 5, 1⟩

/-- Concrete store for the simulate scenario: rows `(A,B,WIN)` twice and
`(B,A,WIN)` once. -/
def db_sim : DB :=
  ⟨[⟨1, "A", none, none⟩, ⟨2, "B", none, none⟩],
   [⟨1, "A", "B", "u", "u", 1⟩, ⟨2, "A", "B", "v", "v", 1⟩,
    ⟨3, "B", "A", "w", "w", 1⟩], 3, 4⟩

/-- Concrete store with archetypes `a`, `c` and one fight between them. -/
def db_hist : DB :=
  ⟨[⟨1, "a", none, none⟩, ⟨2, "c", none, none⟩], [⟨1, "a", "c", "x", "x", 1⟩], 3, 2⟩

/-- History producing the chain `a ← b ← c` by adds, then re-parenting `a`
under its grandchild `c`. -/
def cycleOps : List Op :=
  [.add "a" none none, .add "b" (some "a") none, .add "c" (some "b") none,
   .rename "a" none (some "c") none]

theorem two_le_countP {α : Type} {p : α → Bool} {l : List α} {a b : α}
    (ha : a ∈ l) (hb : b ∈ l) (hne : a ≠ b) (hpa : p a = true) (hpb : p b = true) :
    2 ≤ l.countP p := by
  induction l with
  | nil => cases ha
  | cons x t ih =>
    rcases List.mem_cons.mp ha with rfl | ha'
    · have hbt : b ∈ t := by
        rcases List.mem_cons.mp hb with rfl | hb'
        · exact absurd rfl hne
        · exact hb'
      have h1 : 0 < t.countP p := List.countP_pos_iff.mpr ⟨b, hbt, hpb⟩
      rw [List.countP_cons_of_pos p _ hpa]
      omega
    · rcases List.mem_cons.mp hb with rfl | hb'
      · have h1 : 0 < t.countP p := List.countP_pos_iff.mpr ⟨a, ha', hpa⟩
        rw [List.countP_cons_of_pos p _ hpb]
        omega
      · have h2 := ih ha' hb'
        rw [List.countP_cons]
        omega

theorem fightMatches_swap (s1 s2 au : String) (f : Fight) :
    fightMatches s2 s1 au f = fightMatches s1 s2 au f := by
  unfold fightMatches
  exact Bool.or_comm _ _

theorem fightMatches_iff {s1 s2 au : String} {f : Fight} :
    fightMatches s1 s2 au f = true ↔
      ((f.shipname1 = s1 ∧ f.shipname2 = s2) ∨ (f.shipname1 = s2 ∧ f.shipname2 = s1))
        ∧ f.author = au := by
  unfold fightMatches
  simp only [Bool.or_eq_true, Bool.and_eq_true, beq_iff_eq]
  tauto

theorem fightMatches_congr_of_mk {t1 t2 tau s1 s2 au : String} {i : Nat}
    {an : String} {r : Int}
    (h : fightMatches t1 t2 tau (⟨i, s1, s2, au, an, r⟩ : Fight) = true) :
    ∀ f : Fight, fightMatches t1 t2 tau f = fightMatches s1 s2 au f := by
  intro f
  rcases fightMatches_iff.mp h with ⟨hpair, hau⟩
  rcases hpair with ⟨h1, h2⟩ | ⟨h1, h2⟩
  · subst h1; subst h2; subst hau; rfl
  · subst h1; subst h2; subst hau
    exact fightMatches_swap _ _ _ f

theorem dedupe_insert_shape (db : DB) (s1 s2 au an : String) (r : Int) :
    ∃ K : List Fight,
      (dedupe_insert db s1 s2 au an r).fights = K ++ [⟨db.nextFid, s1, s2, au, an, r⟩] ∧
      (dedupe_insert db s1 s2 au an r).archetypes = db.archetypes ∧
      (dedupe_insert db s1 s2 au an r).nextFid = db.nextFid + 1 ∧
      K.Sublist db.fights ∧
      (db.fights.countP (fightMatches s1 s2 au) ≤ 1 →
        K.countP (fightMatches s1 s2 au) = 0) := by
  unfold dedupe_insert
  cases hf : db.fights.find? (fightMatches s1 s2 au) with
  | none =>
    refine ⟨db.fights, rfl, rfl, rfl, List.Sublist.refl _, fun _ => ?_⟩
    rw [List.countP_eq_zero]
    exact List.find?_eq_none.mp hf
  | some ex =>
    refine ⟨db.fights.filter (fun g => !(g.id == ex.id)), rfl, rfl, rfl,
      List.filter_sublist _, fun hle => ?_⟩
    rw [List.countP_eq_zero]
    intro f hfmem hmatch
    have hmem := List.mem_filter.mp hfmem
    have hid : f.id ≠ ex.id := by
      have := hmem.2
      simpa using this
    have hex_mem : ex ∈ db.fights := List.mem_of_find?_eq_some hf
    have hex_match : fightMatches s1 s2 au ex = true := List.find?_some hf
    have hne : f ≠ ex := fun hcontra => hid (congrArg Fight.id hcontra)
    have h2 := two_le_countP hmem.1 hex_mem hne hmatch hex_match
    omega

theorem dedupe_insert_unique {db : DB} {s1 s2 au an : String} {r : Int}
    (h : PairAuthorUnique db.fights) :
    PairAuthorUnique (dedupe_insert db s1 s2 au an r).fights := by
  intro t1 t2 tau
  obtain ⟨K, hK, -, -, hsub, hzero⟩ := dedupe_insert_shape db s1 s2 au an r
  rw [hK, List.countP_append]
  by_cases hm : fightMatches t1 t2 tau (⟨db.nextFid, s1, s2, au, an, r⟩ : Fight) = true
  · have hq := fightMatches_congr_of_mk hm
    have h0 : K.countP (fightMatches t1 t2 tau) = 0 := by
      have heq : K.countP (fightMatches t1 t2 tau) = K.countP (fightMatches s1 s2 au) :=
        List.countP_congr (fun f _ => by rw [hq f])
      rw [heq]
      exact hzero (h s1 s2 au)
    rw [h0, List.countP_singleton, if_pos hm]
  · have h1 : List.countP (fightMatches t1 t2 tau)
        [(⟨db.nextFid, s1, s2, au, an, r⟩ : Fight)] = 0 := by
      rw [List.countP_singleton, if_neg hm]
    have h2 : K.countP (fightMatches t1 t2 tau) ≤ 1 :=
      le_trans (hsub.countP_le _) (h t1 t2 tau)
    omega

theorem dedupe_insert_names {db : DB} {s1 s2 au an : String} {r : Int}
    (h : FightNamesExist db)
    (h1 : archetype_exists db s1 = true) (h2 : archetype_exists db s2 = true) :
    FightNamesExist (dedupe_insert db s1 s2 au an r) := by
  obtain ⟨K, hK, harch, -, hsub, -⟩ := dedupe_insert_shape db s1 s2 au an r
  have hex : ∀ n, archetype_exists (dedupe_insert db s1 s2 au an r) n =
      archetype_exists db n := by
    intro n; unfold archetype_exists; rw [harch]
  intro f hfmem
  rw [hK] at hfmem
  rcases List.mem_append.mp hfmem with hf | hf
  · have hin := h f (hsub.subset hf)
    rw [hex, hex]
    exact hin
  · have : f = ⟨db.nextFid, s1, s2, au, an, r⟩ := by simpa using hf
    subst this
    rw [hex, hex]
    exact ⟨h1, h2⟩


theorem insertLoop_inv (fuel : Nat) : ∀ (db : DB) (l : List (String × String))
    (au an : String) (r : Int), InvDB db → InvDB (insertLoop fuel db l au an r).2 := by
  induction fuel with
  | zero =>
    intro db l au an r h
    cases l with
    | nil => exact h
    | cons p t => exact h
  | succ fuel ih =>
    intro db l au an r h
    cases l with
    | nil => exact h
    | cons hd tl =>
      obtain ⟨s1, s2⟩ := hd
      rw [insertLoop]
      by_cases hx1 : archetype_exists db s1 = true
      · rw [if_pos hx1]
        by_cases hx2 : archetype_exists db s2 = true
        · rw [if_pos hx2]
          cases hleaf1 : ship_is_leaf db s1 with
          | error e => exact h
          | ok b1 =>
            cases b1 with
            | true =>
              cases hleaf2 : ship_is_leaf db s2 with
              | error e => exact h
              | ok b2 =>
                cases b2 with
                | true =>
                  exact ih _ tl au an r
                    ⟨dedupe_insert_unique h.1, dedupe_insert_names h.2 hx1 hx2⟩
                | false =>
                  cases hch : archetypes_children db s2 with
                  | error e => exact h
                  | ok cs => exact ih _ _ au an r h
            | false =>
              cases hch : archetypes_children db s1 with
              | error e => exact h
              | ok cs => exact ih _ _ au an r h
        · rw [if_neg hx2]
          exact h
      · rw [if_neg hx1]
        exact h

theorem remove_fight_inv {db : DB} (h : InvDB db) (s1 s2 au : String) :
    InvDB (remove_fight db s1 s2 au) := by
  constructor
  · intro t1 t2 tau
    exact le_trans ((List.filter_sublist _).countP_le _) (h.1 t1 t2 tau)
  · intro f hf
    exact h.2 f (List.mem_filter.mp hf).1

theorem any_shipname_append (rows extra : List Archetype) (n : String)
    (h : rows.any (fun a => a.shipname == n) = true) :
    (rows ++ extra).any (fun a => a.shipname == n) = true := by
  rw [List.any_append, h]
  rfl

theorem add_ship_inv (db : DB) (s : String) (pn d : Option String) (h : InvDB db) :
    InvDB (add_ship db s pn d).2 := by
  unfold add_ship
  split
  · exact h
  · split
    · exact h
    · refine ⟨h.1, ?_⟩
      intro f hf
      have hin := h.2 f hf
      exact ⟨any_shipname_append _ _ _ hin.1, any_shipname_append _ _ _ hin.2⟩

theorem renameFights_eq (fights : List Fight) (old_name new_name : String) :
    renameFights fights old_name new_name = fights.map (rnF old_name new_name) := by
  unfold renameFights
  rw [List.map_map]
  congr 1
  funext f
  unfold rnF
  by_cases h1 : f.shipname1 == old_name <;> by_cases h2 : f.shipname2 == old_name <;>
    simp [Function.comp, h1, h2]

theorem rn_string_eq {x t old nn : String} (hx : x ≠ nn) (hne : old ≠ nn)
    (h : (if x == old then nn else x) = t) :
    x = if t == nn then old else t := by
  by_cases hxo : x = old
  · subst hxo
    rw [if_pos (beq_iff_eq.mpr rfl)] at h
    subst h
    rw [if_pos (beq_iff_eq.mpr rfl)]
  · rw [if_neg (by simpa using hxo)] at h
    subst h
    rw [if_neg (by simpa using hx)]

theorem rnF_matches {s1 s2 au old nn : String} {f : Fight}
    (h1 : f.shipname1 ≠ nn) (h2 : f.shipname2 ≠ nn) (hne : old ≠ nn)
    (hm : fightMatches s1 s2 au (rnF old nn f) = true) :
    fightMatches (if s1 == nn then old else s1) (if s2 == nn then old else s2) au f
      = true := by
  rcases fightMatches_iff.mp hm with ⟨hpair, hau⟩
  apply fightMatches_iff.mpr
  refine ⟨?_, hau⟩
  rcases hpair with ⟨ha, hb⟩ | ⟨ha, hb⟩
  · exact Or.inl ⟨rn_string_eq h1 hne ha, rn_string_eq h2 hne hb⟩
  · exact Or.inr ⟨rn_string_eq h1 hne ha, rn_string_eq h2 hne hb⟩

theorem renameFights_unique {fights : List Fight} {old nn : String}
    (h : ∀ s1 s2 au, fights.countP (fightMatches s1 s2 au) ≤ 1)
    (hno : ∀ f ∈ fights, f.shipname1 ≠ nn ∧ f.shipname2 ≠ nn)
    (hne : old ≠ nn) :
    ∀ s1 s2 au, (renameFights fights old nn).countP (fightMatches s1 s2 au) ≤ 1 := by
  intro s1 s2 au
  rw [renameFights_eq, List.countP_map]
  have hmono : fights.countP (fightMatches s1 s2 au ∘ rnF old nn) ≤
      fights.countP (fightMatches (if s1 == nn then old else s1)
        (if s2 == nn then old else s2) au) :=
    List.countP_mono_left (fun f hf hp =>
      rnF_matches (hno f hf).1 (hno f hf).2 hne hp)
  exact le_trans hmono (h _ _ au)

theorem renameArchetypes_exists {archeRows : List Archetype} {old nn x : String}
    (hx : (archeRows.any (fun a => a.shipname == x)) = true) :
    ((renameArchetypes archeRows old nn).any (fun a => a.shipname ==
      (if x == old then nn else x))) = true := by
  rcases List.any_eq_true.mp hx with ⟨a, ha, hax⟩
  apply List.any_eq_true.mpr
  refine ⟨if a.shipname == old then { a with shipname := nn } else a, ?_, ?_⟩
  · unfold renameArchetypes
    exact List.mem_map.mpr ⟨a, ha, rfl⟩
  · have hax' : a.shipname = x := beq_iff_eq.mp hax
    subst hax'
    by_cases ho : a.shipname == old <;> simp [ho]

theorem any_shipname_map_preserve {g : Archetype → Archetype}
    (hg : ∀ a, (g a).shipname = a.shipname) (rows : List Archetype) (n : String) :
    ((rows.map g).any (fun a => a.shipname == n)) =
      rows.any (fun a => a.shipname == n) := by
  rw [List.any_map]
  congr 1
  funext a
  simp [Function.comp, hg a]

theorem inv_arch_map {db : DB} (h : InvDB db) {g : Archetype → Archetype}
    (hg : ∀ a, (g a).shipname = a.shipname) :
    InvDB { db with archetypes := db.archetypes.map g } := by
  constructor
  · exact h.1
  · intro f hf
    have hin := h.2 f hf
    unfold archetype_exists at hin ⊢
    rw [show ({ db with archetypes := db.archetypes.map g } : DB).archetypes =
      db.archetypes.map g from rfl]
    rw [any_shipname_map_preserve hg, any_shipname_map_preserve hg]
    exact hin

theorem rename_ship_inv (db : DB) (o : String) (nn np nd : Option String)
    (h : InvDB db) : InvDB (rename_ship db o nn np nd).2 := by
  unfold rename_ship
  split
  case isFalse => exact h
  case isTrue hex_o =>
    split
    case h_1 => exact h
    case h_2 =>
      rename_i db1 cur heq
      have hdb1 : InvDB db1 := by
        split at heq
        case h_1 =>
          split at heq
          case isTrue => exact Except.noConfusion heq
          case isFalse hn =>
            cases heq
            have hne : o ≠ cur := by
              intro hcontra
              subst hcontra
              exact hn hex_o
            constructor
            · exact renameFights_unique h.1
                (fun f hf => by
                  have hin := h.2 f hf
                  constructor
                  · intro hc
                    rw [hc] at hin
                    exact hn hin.1
                  · intro hc
                    rw [hc] at hin
                    exact hn hin.2) hne
            · intro f hf
              have hf' : f ∈ db.fights.map (rnF o cur) := by
                rw [← renameFights_eq]
                exact hf
              rcases List.mem_map.mp hf' with ⟨f0, hf0, rfl⟩
              have hin := h.2 f0 hf0
              exact ⟨renameArchetypes_exists hin.1, renameArchetypes_exists hin.2⟩
        case h_2 =>
          cases heq
          exact h
      split
      case h_1 => exact hdb1
      case h_2 db2 heq2 =>
        have hdb2 : InvDB db2 := by
          split at heq2
          case h_1 npn =>
            split at heq2
            case isFalse => exact Except.noConfusion heq2
            case isTrue =>
              split at heq2
              case isTrue => exact Except.noConfusion heq2
              case isFalse =>
                split at heq2
                case h_1 => exact Except.noConfusion heq2
                case h_2 children =>
                  split at heq2
                  case isTrue => exact Except.noConfusion heq2
                  case isFalse =>
                    split at heq2
                    case h_1 => exact Except.noConfusion heq2
                    case h_2 pid =>
                      cases heq2
                      exact inv_arch_map hdb1 (fun a => by
                        by_cases hc : a.shipname == cur <;> simp [hc])
          case h_2 =>
            cases heq2
            exact hdb1
        split
        case h_1 d =>
          exact inv_arch_map hdb2 (fun a => by
            by_cases hc : a.shipname == o <;> simp [hc])
        case h_2 => exact hdb2

theorem applyOp_inv (db : DB) (op : Op) (h : InvDB db) : InvDB (applyOp db op) := by
  cases op with
  | add s p d => exact add_ship_inv db s p d h
  | report fuel s1 s2 au an r => exact insertLoop_inv fuel db [(s1, s2)] au an r h
  | removeF s1 s2 au => exact remove_fight_inv h s1 s2 au
  | rename o nname np nd => exact rename_ship_inv db o nname np nd h

theorem runOps_inv (ops : List Op) : ∀ db : DB, InvDB db → InvDB (runOps db ops) := by
  induction ops with
  | nil =>
    intro db h
    exact h
  | cons op rest ih =>
    intro db h
    exact ih _ (applyOp_inv db op h)

theorem init_inv : InvDB DB.init := by
  constructor
  · intro s1 s2 au
    simp [DB.init]
  · intro f hf
    simp [DB.init] at hf


theorem parentIdOf_lt {db : DB} (h : ParentIdLt db) {i p : Nat}
    (hp : parentIdOf db i = some p) : p < i := by
  unfold parentIdOf at hp
  cases hf : db.archetypes.find? (fun a => a.id == i) with
  | none => rw [hf] at hp; cases hp
  | some a =>
    rw [hf] at hp
    have hmem := List.mem_of_find?_eq_some hf
    have hid : a.id = i := by simpa using List.find?_some hf
    have hlt := h.1 a hmem p hp
    omega

theorem ancestorIter_zero (db : DB) (i : Nat) : ancestorIter db 0 i = some i := rfl

theorem ancestorIter_succ (db : DB) (k i : Nat) :
    ancestorIter db (k+1) i =
      match parentIdOf db i with
      | some p => ancestorIter db k p
      | none => none := rfl

theorem ancestorIter_lt {db : DB} (h : ParentIdLt db) :
    ∀ (k i j : Nat), ancestorIter db (k+1) i = some j → j < i := by
  intro k
  induction k with
  | zero =>
    intro i j hij
    rw [ancestorIter_succ] at hij
    cases hp : parentIdOf db i with
    | none => simp only [hp] at hij; cases hij
    | some p =>
      simp only [hp, ancestorIter_zero] at hij
      cases hij
      exact parentIdOf_lt h hp
  | succ k ih =>
    intro i j hij
    rw [ancestorIter_succ] at hij
    cases hp : parentIdOf db i with
    | none => simp only [hp] at hij; cases hij
    | some p =>
      simp only [hp] at hij
      have h1 := ih p j hij
      have h2 := parentIdOf_lt h hp
      omega

theorem get_ship_id_mem {db : DB} {pn : Option String} {pid : Nat}
    (h : get_ship_id db pn = .ok (some pid)) : ∃ a ∈ db.archetypes, a.id = pid := by
  cases pn with
  | none => simp [get_ship_id] at h
  | some s =>
    simp only [get_ship_id] at h
    cases hf : db.archetypes.find? (fun a => a.shipname == s) with
    | none => rw [hf] at h; cases h
    | some a =>
      rw [hf] at h
      have hid : a.id = pid := by simpa using h
      exact ⟨a, List.mem_of_find?_eq_some hf, hid⟩

theorem add_ship_parentIdLt (db : DB) (s : String) (pn d : Option String)
    (h : ParentIdLt db) : ParentIdLt (add_ship db s pn d).2 := by
  unfold add_ship
  split
  · exact h
  · split
    · exact h
    · rename_i pid hpid
      constructor
      · intro a ha p hp
        rcases List.mem_append.mp ha with ha' | ha'
        · exact h.1 a ha' p hp
        · have haeq : a = ⟨db.nextAid, s, pid, d⟩ := by simpa using ha'
          subst haeq
          have hpid' : pid = some p := hp
          subst hpid'
          obtain ⟨a0, ha0, ha0id⟩ := get_ship_id_mem hpid
          have := h.2 a0 ha0
          simp only []
          omega
      · intro a ha
        rcases List.mem_append.mp ha with ha' | ha'
        · have := h.2 a ha'
          simp only []
          omega
        · have haeq : a = ⟨db.nextAid, s, pid, d⟩ := by simpa using ha'
          subst haeq
          simp only []
          omega

theorem applyOp_add_parentIdLt {db : DB} {op : Op} (hop : op.isAdd = true)
    (h : ParentIdLt db) : ParentIdLt (applyOp db op) := by
  cases op with
  | add s p d => exact add_ship_parentIdLt db s p d h
  | report fuel s1 s2 au an r => exact Bool.noConfusion hop
  | removeF s1 s2 au => exact Bool.noConfusion hop
  | rename o nnn np nd => exact Bool.noConfusion hop

theorem runOps_add_parentIdLt : ∀ (ops : List Op), AddOnly ops →
    ∀ db : DB, ParentIdLt db → ParentIdLt (runOps db ops) := by
  intro ops
  induction ops with
  | nil =>
    intro _ db h
    exact h
  | cons op rest ih =>
    intro hops db h
    exact ih (fun o ho => hops o (List.mem_cons_of_mem _ ho)) _
      (applyOp_add_parentIdLt (hops op (List.mem_cons_self _ _)) h)

theorem init_parentIdLt : ParentIdLt DB.init := by
  constructor
  · intro a ha
    simp [DB.init] at ha
  · intro a ha
    simp [DB.init] at ha

/-- C3: in every state reachable from the empty store by any sequence of
add, reportFight (any fuel), removeFight and rename operations — counting
the partially applied state an aborted operation leaves behind — at most
one Fight row exists per unordered pair of names per author; in
particular the uniqueness invariant survives rename's cascade over the
Fights table. -/
theorem fight_pair_author_unique_reachable (ops : List Op) :
    PairAuthorUnique (runOps DB.init ops).fights :=
  (runOps_inv ops DB.init init_inv).1

/-- C4 (counterexample): the shallow cycle checks of rename do NOT keep the
parent relation acyclic.  After adds building the chain `a ← b ← c`,
re-parenting `a` under its grandchild `c` is accepted (`.ok`), and in the
resulting reachable state the id of `a` is its own third ancestor — a
cycle. -/
theorem rename_grandchild_cycle :
    (rename_ship (runOps DB.init (cycleOps.take 3)) "a" none (some "c") none).1
      = .ok () ∧
    ancestorIter (runOps DB.init cycleOps) 3 1 = some 1 :=
  ⟨rfl, rfl⟩

/-- C4 (amended): in every state reachable by add operations alone the
parent relation is acyclic (no id is its own strict ancestor); rename's
checks reject only the archetype itself and its direct children as the new
parent, which does not prevent cycles through deeper descendants. -/
theorem addOnly_parent_forest (ops : List Op) (h : AddOnly ops) (i k : Nat) :
    ancestorIter (runOps DB.init ops) (k+1) i ≠ some i := by
  intro hcontra
  have hlt := ancestorIter_lt (runOps_add_parentIdLt ops h DB.init init_parentIdLt)
    k i i hcontra
  omega

/-- C4 (witness): the amended statement applied to a concrete add-only
history. -/
theorem addOnly_parent_forest_witness :
    ancestorIter (runOps DB.init [.add "a" none none, .add "b" (some "a") none]) 1 2
      ≠ some 2 :=
  addOnly_parent_forest [.add "a" none none, .add "b" (some "a") none]
    (by
      intro op hop
      cases hop with
      | head => rfl
      | tail _ hop2 =>
        cases hop2 with
        | head => rfl
        | tail _ hop3 => cases hop3) 2 0

/-- C7 (counterexample): `ship_is_leaf` on a name absent from the store
raises (`get_ship_id` subscripts the `None` returned by `fetchone`), it
does not return `true` as the claim states. -/
theorem ship_is_leaf_missing_raises :
    ship_is_leaf DB.init "x" = .error .typeError ∧
    archetype_exists DB.init "x" = false :=
  ⟨rfl, rfl⟩

/-- C7 (amended): `isLeaf` is not total on arbitrary names: for every name
that does not exist in the Archetype Store it raises the `None`-subscript
`TypeError` instead of returning `true`. -/
theorem ship_is_leaf_missing (db : DB) (name : String)
    (h : archetype_exists db name = false) :
    ship_is_leaf db name = .error .typeError := by
  unfold ship_is_leaf
  simp only [get_ship_id]
  have hf : db.archetypes.find? (fun a => a.shipname == name) = none := by
    rw [List.find?_eq_none]
    intro a ha hcontra
    have htrue : archetype_exists db name = true :=
      List.any_eq_true.mpr ⟨a, ha, hcontra⟩
    rw [h] at htrue
    exact Bool.noConfusion htrue
  rw [hf]

/-- C7 (witness): the amended statement at a concrete store and name. -/
theorem ship_is_leaf_missing_witness :
    ship_is_leaf db_a "zzz" = .error .typeError :=
  ship_is_leaf_missing db_a "zzz" rfl


theorem map_eq_self_of {α : Type} {f : α → α} {l : List α}
    (h : ∀ a ∈ l, f a = a) : l.map f = l := by
  induction l with
  | nil => rfl
  | cons x t ih =>
    rw [List.map_cons, h x (List.mem_cons_self x t),
      ih (fun a ha => h a (List.mem_cons_of_mem x ha))]

theorem rename_ship_name_none {db : DB} {o n : String}
    (ho : archetype_exists db o = true) (hn : archetype_exists db n = false) :
    rename_ship db o (some n) none none =
      (.ok (), { db with fights := renameFights db.fights o n,
                         archetypes := renameArchetypes db.archetypes o n }) := by
  have hn' : ¬ (archetype_exists db n = true) := by
    rw [hn]
    exact Bool.false_ne_true
  simp only [rename_ship]
  rw [if_pos ho, if_neg hn']

theorem rename_name_desc {db : DB} {o n : String} (d : String)
    (ho : archetype_exists db o = true) (hn : archetype_exists db n = false) :
    rename_ship db o (some n) none (some d) =
      (.ok (), { db with fights := renameFights db.fights o n,
                         archetypes := renameArchetypes db.archetypes o n }) := by
  have hn' : ¬ (archetype_exists db n = true) := by
    rw [hn]
    exact Bool.false_ne_true
  have hone : o ≠ n := by
    intro hc
    rw [hc, hn] at ho
    exact Bool.noConfusion ho
  have hid : ∀ a ∈ renameArchetypes db.archetypes o n,
      (if a.shipname == o then { a with description := some d } else a) = a := by
    intro a ha
    rcases List.mem_map.mp ha with ⟨a0, -, rfl⟩
    by_cases hc : a0.shipname == o
    · rw [if_pos hc]
      have : n ≠ o := fun hcc => hone hcc.symm
      rw [if_neg (by simpa using this)]
    · rw [if_neg hc]
      rw [if_neg (by simpa using hc)]
  simp only [rename_ship]
  rw [if_pos ho, if_neg hn']
  exact congrArg (fun l => ((Except.ok () : Except Err Unit),
    ({ db with fights := renameFights db.fights o n, archetypes := l } : DB)))
    (map_eq_self_of hid)

theorem renameArchetypes_old_gone {rows : List Archetype} {o n : String} (hne : o ≠ n) :
    (renameArchetypes rows o n).any (fun a => a.shipname == o) = false := by
  apply Bool.eq_false_iff.mpr
  intro hc
  rcases List.any_eq_true.mp hc with ⟨a1, ha1, hbeq⟩
  rcases List.mem_map.mp ha1 with ⟨a0, -, rfl⟩
  by_cases hc0 : a0.shipname == o
  · rw [if_pos hc0] at hbeq
    have : n = o := by simpa using hbeq
    exact hne this.symm
  · rw [if_neg hc0] at hbeq
    exact hc0 hbeq

theorem exists_renamed {rows : List Archetype} {o n : String}
    (ho : rows.any (fun a => a.shipname == o) = true) :
    (renameArchetypes rows o n).any (fun a => a.shipname == n) = true := by
  have h := @renameArchetypes_exists rows o n o ho
  simpa using h

theorem rnF_roundtrip {a b : String} {f : Fight}
    (h1 : f.shipname1 ≠ b) (h2 : f.shipname2 ≠ b) :
    rnF b a (rnF a b f) = f := by
  obtain ⟨i, x1, x2, au, an, r⟩ := f
  have h1' : x1 ≠ b := h1
  have h2' : x2 ≠ b := h2
  unfold rnF
  by_cases c1 : x1 == a <;> by_cases c2 : x2 == a <;>
    simp_all [beq_iff_eq]


/-- C10: when rename is called with both a newName and a newDescription,
the new description is silently not persisted: the call succeeds, the name
change is applied, but the stored descriptions are exactly what they were
before (the description `UPDATE` filters by the old name, which no longer
matches). -/
theorem rename_description_dropped (db : DB) (o n d : String)
    (ho : archetype_exists db o = true) (hn : archetype_exists db n = false) :
    (rename_ship db o (some n) none (some d)).1 = .ok () ∧
    (rename_ship db o (some n) none (some d)).2.archetypes =
      renameArchetypes db.archetypes o n ∧
    (rename_ship db o (some n) none (some d)).2.archetypes.map
        (fun a => a.description) =
      db.archetypes.map (fun a => a.description) := by
  rw [rename_name_desc d ho hn]
  refine ⟨rfl, rfl, ?_⟩
  show (renameArchetypes db.archetypes o n).map (fun a => a.description) =
    db.archetypes.map (fun a => a.description)
  unfold renameArchetypes
  rw [List.map_map]
  congr 1
  funext a
  by_cases hc : a.shipname == o <;> simp [Function.comp, hc]

/-- C10 (witness): the theorem applied to a concrete store. -/
theorem rename_description_dropped_witness :
    (rename_ship db_two "a" (some "z") none (some "vented")).1 = .ok () ∧
    (rename_ship db_two "a" (some "z") none (some "vented")).2.archetypes =
      renameArchetypes db_two.archetypes "a" "z" ∧
    (rename_ship db_two "a" (some "z") none (some "vented")).2.archetypes.map
        (fun a => a.description) =
      db_two.archetypes.map (fun a => a.description) :=
  rename_description_dropped db_two "a" "z" "vented" rfl rfl

/-- C9: rename round-trip on fight history: renaming `a` to an untaken
name `b` and then back leaves the Fights table exactly as it started (so
every row that referenced `a` has `a` restored), provided every fight name
references an existing archetype — which holds in every reachable state. -/
theorem rename_roundtrip_fights (db : DB) (a b : String)
    (ha : archetype_exists db a = true) (hb : archetype_exists db b = false)
    (hf : FightNamesExist db) :
    (rename_ship db a (some b) none none).1 = .ok () ∧
    (rename_ship (rename_ship db a (some b) none none).2 b (some a) none none).1
      = .ok () ∧
    (rename_ship (rename_ship db a (some b) none none).2 b (some a) none none).2.fights
      = db.fights := by
  have hne : a ≠ b := by
    intro hc
    rw [hc, hb] at ha
    exact Bool.noConfusion ha
  rw [rename_ship_name_none ha hb]
  have hb1 : archetype_exists
      ({ db with fights := renameFights db.fights a b,
                 archetypes := renameArchetypes db.archetypes a b } : DB) b = true :=
    exists_renamed ha
  have ha1 : archetype_exists
      ({ db with fights := renameFights db.fights a b,
                 archetypes := renameArchetypes db.archetypes a b } : DB) a = false :=
    renameArchetypes_old_gone hne
  rw [rename_ship_name_none hb1 ha1]
  refine ⟨rfl, rfl, ?_⟩
  show renameFights (renameFights db.fights a b) b a = db.fights
  rw [renameFights_eq, renameFights_eq, List.map_map]
  apply map_eq_self_of
  intro f hfm
  have hin := hf f hfm
  have h1 : f.shipname1 ≠ b := by
    intro hc
    rw [hc] at hin
    rw [hb] at hin
    exact Bool.noConfusion hin.1
  have h2 : f.shipname2 ≠ b := by
    intro hc
    rw [hc] at hin
    rw [hb] at hin
    exact Bool.noConfusion hin.2
  exact rnF_roundtrip h1 h2

/-- C9 (witness): the round-trip applied to a concrete store with one
fight row referencing the renamed archetype. -/
theorem rename_roundtrip_fights_witness :
    (rename_ship db_hist "a" (some "b") none none).1 = .ok () ∧
    (rename_ship (rename_ship db_hist "a" (some "b") none none).2 "b" (some "a")
      none none).1 = .ok () ∧
    (rename_ship (rename_ship db_hist "a" (some "b") none none).2 "b" (some "a")
      none none).2.fights = db_hist.fights :=
  rename_roundtrip_fights db_hist "a" "b" rfl rfl
    (by unfold FightNamesExist; decide)


theorem get_ship_id_error {db : DB} {pn : Option String} {e : Err}
    (h : get_ship_id db pn = .error e) : e = Err.typeError := by
  cases pn with
  | none => simp [get_ship_id] at h
  | some s =>
    simp only [get_ship_id] at h
    cases hf : db.archetypes.find? (fun a => a.shipname == s) with
    | some a => rw [hf] at h; cases h
    | none =>
      rw [hf] at h
      injection h with h2
      exact h2.symm

theorem archetypes_children_error {db : DB} {s : String} {e : Err}
    (h : archetypes_children db s = .error e) : e = Err.typeError := by
  unfold archetypes_children at h
  cases hg : get_ship_id db (some s) with
  | error e2 =>
    rw [hg] at h
    injection h with h2
    rw [← h2]
    exact get_ship_id_error hg
  | ok v =>
    rw [hg] at h
    cases v with
    | none => cases h
    | some i => cases h

/-- C5 (counterexample): a rename that supplies both a newName and an
invalid newParent raises InvalidHierarchy only AFTER the name change has
been executed: the Archetypes table is no longer what it was before the
call. -/
theorem rename_mutates_before_invalidHierarchy :
    (rename_ship db_a "a" (some "b") (some "b") none).1 = .error .invalidHierarchy ∧
    (rename_ship db_a "a" (some "b") (some "b") none).2 ≠ db_a :=
  ⟨rfl, by decide⟩

/-- C5 (amended): when rename raises InvalidHierarchy and no newName was
supplied, no mutation has been applied (the state is exactly the input
state); when a newName was supplied in the same call, the name change to
the Fights and Archetypes tables has already been applied by the time
InvalidHierarchy is raised, and only the parent and description updates
are withheld. -/
theorem rename_invalidHierarchy_state (db : DB) (o np : String) (nn nd : Option String)
    (h : (rename_ship db o nn (some np) nd).1 = .error .invalidHierarchy) :
    (nn = none → (rename_ship db o nn (some np) nd).2 = db) ∧
    (∀ n, nn = some n → (rename_ship db o nn (some np) nd).2 =
      { db with fights := renameFights db.fights o n,
                archetypes := renameArchetypes db.archetypes o n }) := by
  constructor
  · rintro rfl
    by_cases hex : archetype_exists db o = true
    · by_cases hex2 : archetype_exists db np = true
      · by_cases hnpc : (np == o) = true
        · simp [rename_ship, hex, hex2, hnpc]
        · cases hch : archetypes_children db o with
          | error e => simp [rename_ship, hex, hex2, hnpc, hch]
          | ok cs =>
            by_cases hcon : np ∈ cs
            · simp [rename_ship, hex, hex2, hnpc, hch, hcon]
            · cases hgid : get_ship_id db (some np) with
              | error e => simp [rename_ship, hex, hex2, hnpc, hch, hcon, hgid]
              | ok pid =>
                rcases nd with _ | d <;>
                  simp [rename_ship, hex, hex2, hnpc, hch, hcon, hgid] at h
      · simp [rename_ship, hex, hex2]
    · simp [rename_ship, hex] at h
  · rintro n rfl
    by_cases hex : archetype_exists db o = true
    · by_cases hn : archetype_exists db n = true
      · simp [rename_ship, hex, hn] at h
      · simp only [rename_ship] at h ⊢
        rw [if_pos hex, if_neg hn] at h ⊢
        by_cases hex2 : archetype_exists { db with
            fights := renameFights db.fights o n,
            archetypes := renameArchetypes db.archetypes o n } np = true
        · by_cases hnpc : (np == n) = true
          · simp [hex2, hnpc]
          · cases hch : archetypes_children { db with
                fights := renameFights db.fights o n,
                archetypes := renameArchetypes db.archetypes o n } n with
            | error e => simp [hex2, hnpc, hch]
            | ok cs =>
              by_cases hcon : np ∈ cs
              · simp [hex2, hnpc, hch, hcon]
              · cases hgid : get_ship_id { db with
                    fights := renameFights db.fights o n,
                    archetypes := renameArchetypes db.archetypes o n } (some np) with
                | error e => simp [hex2, hnpc, hch, hcon, hgid]
                | ok pid =>
                  rcases nd with _ | d <;> simp [hex2, hnpc, hch, hcon, hgid] at h
        · simp [hex2]
    · simp [rename_ship, hex] at h

/-- C5 (witness): the amended claim applied to a concrete call without a
newName: the failing rename leaves the store untouched. -/
theorem rename_invalidHierarchy_state_witness :
    (rename_ship db_a "a" none (some "a") none).2 = db_a :=
  (rename_invalidHierarchy_state db_a "a" "a" none none rfl).1 rfl

/-- C6 (counterexample): renaming an archetype to its own current name DOES
raise Conflict (the existence check does not exclude the archetype itself),
contradicting the claim. -/
theorem rename_self_conflict :
    archetype_exists db_a "a" = true ∧
    (rename_ship db_a "a" (some "a") none none).1 = .error .conflict :=
  ⟨rfl, rfl⟩

/-- C6 (amended): for an existing `oldName`, rename raises Conflict exactly
when the requested new name is already the name of ANY archetype, the
archetype being renamed included; in particular rename-to-self raises
Conflict. -/
theorem rename_conflict_iff (db : DB) (o n : String) (np nd : Option String)
    (ho : archetype_exists db o = true) :
    ((rename_ship db o (some n) np nd).1 = .error .conflict) ↔
      archetype_exists db n = true := by
  by_cases hn : archetype_exists db n = true
  · simp [rename_ship, ho, hn]
  · refine iff_of_false ?_ hn
    intro h
    simp only [rename_ship] at h
    rw [if_pos ho, if_neg hn] at h
    rcases np with _ | npn
    · rcases nd with _ | d <;> simp at h
    · by_cases hex2 : archetype_exists { db with
          fights := renameFights db.fights o n,
          archetypes := renameArchetypes db.archetypes o n } npn = true
      · by_cases hnpc : (npn == n) = true
        · simp [hex2, hnpc] at h
        · cases hch : archetypes_children { db with
              fights := renameFights db.fights o n,
              archetypes := renameArchetypes db.archetypes o n } n with
          | error e =>
            have he : e = Err.typeError := archetypes_children_error hch
            subst he
            simp [hex2, hnpc, hch] at h
          | ok cs =>
            by_cases hcon : npn ∈ cs
            · simp [hex2, hnpc, hch, hcon] at h
            · cases hgid : get_ship_id { db with
                  fights := renameFights db.fights o n,
                  archetypes := renameArchetypes db.archetypes o n } (some npn) with
              | error e =>
                have he : e = Err.typeError := get_ship_id_error hgid
                subst he
                simp [hex2, hnpc, hch, hcon, hgid] at h
              | ok pid =>
                rcases nd with _ | d <;> simp [hex2, hnpc, hch, hcon, hgid] at h
      · simp [hex2] at h

/-- C6 (witness): the amended claim at a concrete store where the requested
new name is taken by another archetype. -/
theorem rename_conflict_iff_witness :
    ((rename_ship db_two "a" (some "b") none none).1 = .error .conflict) ↔
      archetype_exists db_two "b" = true :=
  rename_conflict_iff db_two "a" "b" none none rfl


/-- C8: the prediction of get_average_match is 1 (WIN for ship1) exactly
when the stored win count strictly exceeds both the loss count and the
draw count, -1 (LOSE) exactly when the loss count is strictly greatest,
and 0 (DRAW) in every other case (any tie among the top values); in
particular, with rows (A,B,WIN) twice and (B,A,WIN) once and no draws the
prediction for A versus B is WIN. -/
theorem average_match_majority (db : DB) (s1 s2 : String) :
    ((get_average_match db s1 s2 = 1) ↔
      (winCount db s2 s1 < winCount db s1 s2 ∧
        drawCount db s1 s2 < winCount db s1 s2)) ∧
    ((get_average_match db s1 s2 = -1) ↔
      (winCount db s1 s2 < winCount db s2 s1 ∧
        drawCount db s1 s2 < winCount db s2 s1)) ∧
    ((get_average_match db s1 s2 = 0) ↔
      (¬(winCount db s2 s1 < winCount db s1 s2 ∧
          drawCount db s1 s2 < winCount db s1 s2) ∧
       ¬(winCount db s1 s2 < winCount db s2 s1 ∧
          drawCount db s1 s2 < winCount db s2 s1))) ∧
    get_average_match db_sim "A" "B" = 1 := by
  refine ⟨?_, ?_, ?_, rfl⟩ <;>
  · simp only [get_average_match]
    split_ifs with h1 h2 <;> simp_all <;> omega

theorem get_ship_id_congr {db1 db2 : DB} (h : db1.archetypes = db2.archetypes)
    (pn : Option String) : get_ship_id db1 pn = get_ship_id db2 pn := by
  cases pn with
  | none => rfl
  | some s =>
    simp only [get_ship_id]
    rw [h]

theorem ship_is_leaf_congr {db1 db2 : DB} (h : db1.archetypes = db2.archetypes)
    (n : String) : ship_is_leaf db1 n = ship_is_leaf db2 n := by
  unfold ship_is_leaf
  rw [get_ship_id_congr h, h]

theorem archetype_exists_congr {db1 db2 : DB} (h : db1.archetypes = db2.archetypes)
    (n : String) : archetype_exists db1 n = archetype_exists db2 n := by
  unfold archetype_exists
  rw [h]


/-- C1: reporting a fight (result DRAW) between an archetype `p` whose
children are exactly the leaves `c1`, `c2` and a leaf `b` fans out into
exactly two Fight rows, one for the pair (c1, b) and one for (c2, b), both
with result DRAW and both authored by `x` (states it for any store with no
prior rows for these pairs by this author). -/
theorem report_fanout_two_children (fuel : Nat) (db : DB) (p b c1 c2 x an : String)
    (hpe : archetype_exists db p = true)
    (hbe : archetype_exists db b = true)
    (hc1e : archetype_exists db c1 = true)
    (hc2e : archetype_exists db c2 = true)
    (hch : archetypes_children db p = .ok [c1, c2])
    (hpl : ship_is_leaf db p = .ok false)
    (hbl : ship_is_leaf db b = .ok true)
    (hc1l : ship_is_leaf db c1 = .ok true)
    (hc2l : ship_is_leaf db c2 = .ok true)
    (hne : c1 ≠ c2)
    (hnof1 : db.fights.find? (fightMatches c1 b x) = none)
    (hnof2 : db.fights.find? (fightMatches c2 b x) = none) :
    insert_fight (fuel+3) db p b x an FIGHT_RESULT.DRAW =
      (.ok (), { db with
        fights := db.fights ++
          [⟨db.nextFid, c1, b, x, an, FIGHT_RESULT.DRAW⟩,
           ⟨db.nextFid + 1, c2, b, x, an, FIGHT_RESULT.DRAW⟩],
        nextFid := db.nextFid + 2 }) := by
  have hded1 : dedupe_insert db c1 b x an FIGHT_RESULT.DRAW =
      { db with
        fights := db.fights ++ [⟨db.nextFid, c1, b, x, an, FIGHT_RESULT.DRAW⟩],
        nextFid := db.nextFid + 1 } := by
    unfold dedupe_insert
    rw [hnof1]
  have step1 : insertLoop (fuel+3) db [(p, b)] x an FIGHT_RESULT.DRAW =
      insertLoop (fuel+2) db [(c1, b), (c2, b)] x an FIGHT_RESULT.DRAW := by
    show insertLoop (fuel+2+1) db ((p, b) :: []) x an FIGHT_RESULT.DRAW = _
    rw [insertLoop, if_pos hpe, if_pos hbe, hpl, hch]
    rfl
  have step2 : insertLoop (fuel+2) db [(c1, b), (c2, b)] x an FIGHT_RESULT.DRAW =
      insertLoop (fuel+1) (dedupe_insert db c1 b x an FIGHT_RESULT.DRAW)
        [(c2, b)] x an FIGHT_RESULT.DRAW := by
    show insertLoop (fuel+1+1) db ((c1, b) :: [(c2, b)]) x an FIGHT_RESULT.DRAW = _
    rw [insertLoop, if_pos hc1e, if_pos hbe, hc1l, hbl]
  have hm2 : ¬ (fightMatches c2 b x
      (⟨db.nextFid, c1, b, x, an, FIGHT_RESULT.DRAW⟩ : Fight) = true) := by
    intro hcontra
    rcases fightMatches_iff.mp hcontra with ⟨hp, -⟩
    rcases hp with ⟨e1, e2⟩ | ⟨e1, e2⟩
    · exact hne e1
    · exact hne (e1.trans e2)
  have hfind2 : (db.fights ++
      [(⟨db.nextFid, c1, b, x, an, FIGHT_RESULT.DRAW⟩ : Fight)]).find?
        (fightMatches c2 b x) = none := by
    rw [List.find?_append, hnof2, Option.none_or, List.find?_singleton, if_neg hm2]
  have step3 : insertLoop (fuel+1)
      ({ db with
        fights := db.fights ++ [⟨db.nextFid, c1, b, x, an, FIGHT_RESULT.DRAW⟩],
        nextFid := db.nextFid + 1 } : DB) [(c2, b)] x an FIGHT_RESULT.DRAW =
      (.ok (), { db with
        fights := db.fights ++
          [⟨db.nextFid, c1, b, x, an, FIGHT_RESULT.DRAW⟩,
           ⟨db.nextFid + 1, c2, b, x, an, FIGHT_RESULT.DRAW⟩],
        nextFid := db.nextFid + 2 }) := by
    have hded2 : dedupe_insert
        ({ db with
          fights := db.fights ++ [⟨db.nextFid, c1, b, x, an, FIGHT_RESULT.DRAW⟩],
          nextFid := db.nextFid + 1 } : DB) c2 b x an FIGHT_RESULT.DRAW =
        { db with
          fights := db.fights ++
            [⟨db.nextFid, c1, b, x, an, FIGHT_RESULT.DRAW⟩,
             ⟨db.nextFid + 1, c2, b, x, an, FIGHT_RESULT.DRAW⟩],
          nextFid := db.nextFid + 2 } := by
      unfold dedupe_insert
      rw [show ({ db with
          fights := db.fights ++ [⟨db.nextFid, c1, b, x, an, FIGHT_RESULT.DRAW⟩],
          nextFid := db.nextFid + 1 } : DB).fights.find? (fightMatches c2 b x)
        = none from hfind2]
      show ({ db with
        fights := (db.fights ++ [⟨db.nextFid, c1, b, x, an, FIGHT_RESULT.DRAW⟩]) ++
          [⟨db.nextFid + 1, c2, b, x, an, FIGHT_RESULT.DRAW⟩],
        nextFid := db.nextFid + 1 + 1 } : DB) = _
      rw [List.append_assoc]
      rfl
    show insertLoop (fuel+1)
      ({ db with
        fights := db.fights ++ [⟨db.nextFid, c1, b, x, an, FIGHT_RESULT.DRAW⟩],
        nextFid := db.nextFid + 1 } : DB) ((c2, b) :: []) x an FIGHT_RESULT.DRAW = _
    rw [insertLoop,
      if_pos (show archetype_exists ({ db with
        fights := db.fights ++ [⟨db.nextFid, c1, b, x, an, FIGHT_RESULT.DRAW⟩],
        nextFid := db.nextFid + 1 } : DB) c2 = true from hc2e),
      if_pos (show archetype_exists ({ db with
        fights := db.fights ++ [⟨db.nextFid, c1, b, x, an, FIGHT_RESULT.DRAW⟩],
        nextFid := db.nextFid + 1 } : DB) b = true from hbe),
      show ship_is_leaf ({ db with
        fights := db.fights ++ [⟨db.nextFid, c1, b, x, an, FIGHT_RESULT.DRAW⟩],
        nextFid := db.nextFid + 1 } : DB) c2 = Except.ok true from hc2l,
      show ship_is_leaf ({ db with
        fights := db.fights ++ [⟨db.nextFid, c1, b, x, an, FIGHT_RESULT.DRAW⟩],
        nextFid := db.nextFid + 1 } : DB) b = Except.ok true from hbl,
      hded2, insertLoop]
  show insertLoop (fuel+3) db [(p, b)] x an FIGHT_RESULT.DRAW = _
  rw [step1, step2, hded1, step3]

/-- C1 (witness): the fan-out theorem applied to the concrete store with
parent `p`, leaf children `c1`, `c2` and leaf `b`. -/
theorem report_fanout_two_children_witness :
    insert_fight 3 db_fan "p" "b" "x" "ax" FIGHT_RESULT.DRAW =
      (.ok (), { db_fan with
        fights := db_fan.fights ++
          [⟨db_fan.nextFid, "c1", "b", "x", "ax", FIGHT_RESULT.DRAW⟩,
           ⟨db_fan.nextFid + 1, "c2", "b", "x", "ax", FIGHT_RESULT.DRAW⟩],
        nextFid := db_fan.nextFid + 2 }) :=
  report_fanout_two_children 0 db_fan "p" "b" "c1" "c2" "x" "ax"
    rfl rfl rfl rfl rfl rfl rfl rfl rfl (by decide) rfl rfl


/-- C2: reporting WIN for leaves (a, b) and then WIN for (b, a) by the same
author leaves exactly one Fight row for the unordered pair: the second
report finds and deletes the prior row regardless of stored order, and the
surviving row records `b` as the winner (stored as shipname1). -/
theorem report_supersedes (fuel : Nat) (db : DB) (a b x an : String)
    (hae : archetype_exists db a = true) (hbe : archetype_exists db b = true)
    (hal : ship_is_leaf db a = .ok true) (hbl : ship_is_leaf db b = .ok true)
    (hcount : db.fights.countP (fightMatches a b x) ≤ 1) :
    (insert_fight (fuel+1) db a b x an FIGHT_RESULT.WIN).1 = .ok () ∧
    (insert_fight (fuel+1) (insert_fight (fuel+1) db a b x an FIGHT_RESULT.WIN).2
        b a x an FIGHT_RESULT.WIN).1 = .ok () ∧
    (insert_fight (fuel+1) (insert_fight (fuel+1) db a b x an FIGHT_RESULT.WIN).2
        b a x an FIGHT_RESULT.WIN).2.fights.filter (fightMatches a b x)
      = [⟨db.nextFid + 1, b, a, x, an, FIGHT_RESULT.WIN⟩] := by
  obtain ⟨K, hK, harch, hnext, hsub, hzero⟩ :=
    dedupe_insert_shape db a b x an FIGHT_RESULT.WIN
  have hKzero : K.countP (fightMatches a b x) = 0 := hzero hcount
  have call1 : insert_fight (fuel+1) db a b x an FIGHT_RESULT.WIN =
      (.ok (), dedupe_insert db a b x an FIGHT_RESULT.WIN) := by
    show insertLoop (fuel+1) db ((a, b) :: []) x an FIGHT_RESULT.WIN = _
    rw [insertLoop, if_pos hae, if_pos hbe, hal, hbl, insertLoop]
  have hrowA : fightMatches b a x
      (⟨db.nextFid, a, b, x, an, FIGHT_RESULT.WIN⟩ : Fight) = true := by
    simp [fightMatches]
  set D1 : DB := dedupe_insert db a b x an FIGHT_RESULT.WIN with hD1
  have call2 : insert_fight (fuel+1) D1 b a x an FIGHT_RESULT.WIN =
      (.ok (), dedupe_insert D1 b a x an FIGHT_RESULT.WIN) := by
    show insertLoop (fuel+1) D1 ((b, a) :: []) x an FIGHT_RESULT.WIN = _
    rw [insertLoop,
      archetype_exists_congr harch b, if_pos hbe,
      archetype_exists_congr harch a, if_pos hae,
      ship_is_leaf_congr harch b, hbl,
      ship_is_leaf_congr harch a, hal,
      insertLoop]
  have hfindD1 : D1.fights.find? (fightMatches b a x) =
      some (⟨db.nextFid, a, b, x, an, FIGHT_RESULT.WIN⟩ : Fight) := by
    rw [hK, List.find?_append]
    have hKnone : K.find? (fightMatches b a x) = none := by
      rw [List.find?_eq_none]
      intro f hf hcontra
      have h0 : fightMatches a b x f = true := by
        rw [← fightMatches_swap]
        exact hcontra
      have hpos : 0 < K.countP (fightMatches a b x) :=
        List.countP_pos_iff.mpr ⟨f, hf, h0⟩
      omega
    rw [hKnone, Option.none_or, List.find?_singleton, if_pos hrowA]
  have hded2fights : (dedupe_insert D1 b a x an FIGHT_RESULT.WIN).fights =
      D1.fights.filter (fun g => !(g.id == db.nextFid)) ++
        [⟨D1.nextFid, b, a, x, an, FIGHT_RESULT.WIN⟩] := by
    unfold dedupe_insert
    rw [hfindD1]
  refine ⟨by rw [call1], ?_, ?_⟩
  · rw [call1]
    show (insert_fight (fuel+1) D1 b a x an FIGHT_RESULT.WIN).1 = .ok ()
    rw [call2]
  · rw [call1]
    show (insert_fight (fuel+1) D1 b a x an FIGHT_RESULT.WIN).2.fights.filter
      (fightMatches a b x) = [⟨db.nextFid + 1, b, a, x, an, FIGHT_RESULT.WIN⟩]
    rw [call2]
    show (dedupe_insert D1 b a x an FIGHT_RESULT.WIN).fights.filter
      (fightMatches a b x) = [⟨db.nextFid + 1, b, a, x, an, FIGHT_RESULT.WIN⟩]
    rw [hded2fights, hnext, hK, List.filter_append, List.filter_append,
      List.filter_append]
    have hrowB : fightMatches a b x
        (⟨db.nextFid + 1, b, a, x, an, FIGHT_RESULT.WIN⟩ : Fight) = true := by
      simp [fightMatches]
    have hq1 : (K.filter (fun g => !(g.id == db.nextFid))).filter
        (fightMatches a b x) = [] := by
      rw [List.filter_eq_nil_iff]
      intro f hf hcontra
      have hfK : f ∈ K := (List.mem_filter.mp hf).1
      have hpos : 0 < K.countP (fightMatches a b x) :=
        List.countP_pos_iff.mpr ⟨f, hfK, hcontra⟩
      omega
    have hq2 : ([(⟨db.nextFid, a, b, x, an, FIGHT_RESULT.WIN⟩ : Fight)].filter
        (fun g => !(g.id == db.nextFid))).filter (fightMatches a b x) = [] := by
      have hbf : (!((⟨db.nextFid, a, b, x, an, FIGHT_RESULT.WIN⟩ : Fight).id
          == db.nextFid)) = false := by simp
      rw [List.filter_singleton, hbf, Bool.cond_false]
      rfl
    rw [hq1, hq2, List.filter_singleton, hrowB, Bool.cond_true]
    rfl

/-- C2 (witness): the supersede theorem at a concrete two-leaf store. -/
theorem report_supersedes_witness :
    (insert_fight 1 db_two "a" "b" "x" "ax" FIGHT_RESULT.WIN).1 = .ok () ∧
    (insert_fight 1 (insert_fight 1 db_two "a" "b" "x" "ax" FIGHT_RESULT.WIN).2
        "b" "a" "x" "ax" FIGHT_RESULT.WIN).1 = .ok () ∧
    (insert_fight 1 (insert_fight 1 db_two "a" "b" "x" "ax" FIGHT_RESULT.WIN).2
        "b" "a" "x" "ax" FIGHT_RESULT.WIN).2.fights.filter
          (fightMatches "a" "b" "x")
      = [⟨db_two.nextFid + 1, "b", "a", "x", "ax", FIGHT_RESULT.WIN⟩] :=
  report_supersedes 0 db_two "a" "b" "x" "ax" rfl rfl rfl rfl (by decide)

end FightDb
